import Mathlib

/-!
Verification of the Nojoin companion recording agent
(capture - mix - segment - upload pipeline and its session state machine).

The definitions below are a shallow embedding of the Rust sources:
  * companion/src/uploader.rs            (upload_segment retry loop)
  * companion/src-tauri/src/audio.rs     (run_audio_loop, start_segment, run_mixing_loop)
  * companion/src/audio.rs               (legacy start_segment: gated callbacks,
                                          delete-on-upload-success)
  * companion/src-tauri/src/state.rs     (record / take level meters)
  * companion/src/state.rs               (legacy set / get level meters)

Machine floats (f32) are modelled by the type F32 below: an exact rational
payload plus the two infinities and NaN.  Floating-point addition inside the
mixing loop is kept abstract (theorems quantify over an arbitrary addition
function on F32, of which real f32 addition is one instance); the comparison,
clamp, and saturating-cast operations that the verified properties depend on
are modelled exactly.  Rust numeric casts (expr as i16, expr as u32) saturate
and map NaN to 0, which castF32toI16 / castF32toU32 reproduce.
-/

namespace Nojoin

/-- Model of an f32 value: an exact rational, an infinity, or NaN. -/
inductive F32 where
  | val (q : ℚ)
  | inf (pos : Bool)
  | nan
deriving DecidableEq

/-- Comparison x > c of an F32 against a finite rational constant,
with IEEE semantics: NaN compares false, +inf compares true. -/
def fgt (x : F32) (c : ℚ) : Bool :=
  match x with
  | .val q => decide (c < q)
  | .inf b => b
  | .nan => false

/-- Comparison x < c of an F32 against a finite rational constant,
with IEEE semantics: NaN compares false, -inf compares true. -/
def flt (x : F32) (c : ℚ) : Bool :=
  match x with
  | .val q => decide (q < c)
  | .inf b => !b
  | .nan => false

/-- Hard clip from run_mixing_loop (audio.rs):
if mixed > 1.0 \x7b mixed = 1.0 \x7d else if mixed < -1.0 \x7b mixed = -1.0 \x7d.
NaN passes both tests false and is left unchanged. -/
def hard_clip (mixed : F32) : F32 :=
  if fgt mixed 1 then .val 1
  else if flt mixed (-1) then .val (-1)
  else mixed

/-- Truncation toward zero, the rounding used by Rust float-to-int casts. -/
def ratTrunc (q : ℚ) : Int :=
  if 0 ≤ q then Int.floor q else Int.ceil q

/-- Saturating cast of an F32 to i16 (Rust expr as i16): truncate toward
zero, saturate to [-32768, 32767], NaN maps to 0. -/
def castF32toI16 (x : F32) : Int :=
  match x with
  | .nan => 0
  | .inf true => 32767
  | .inf false => -32768
  | .val q => max (-32768) (min 32767 (ratTrunc q))

/-- Multiplication by i16::MAX as f32 (exactly 32767.0), applied to the
clipped mix.  Exact on finite values; 32767 > 0 preserves infinity signs. -/
def mulI16Max (x : F32) : F32 :=
  match x with
  | .val q => .val (q * 32767)
  | .inf b => .inf b
  | .nan => .nan

/-- One written PCM sample: let sample_i16 = (mixed * i16::MAX as f32) as i16
after the hard clip (run_mixing_loop, audio.rs). -/
def write_sample_val (mixed : F32) : Int :=
  castF32toI16 (mulI16Max (hard_clip mixed))

/-- Inner per-chunk mixing loop of run_mixing_loop (src-tauri/src/audio.rs):
for each mic sample in order, pop the head of the system buffer if the buffer
is nonempty and add it, clip, scale, write.  Returns the written samples and
the remaining system buffer.  fadd is the (abstract) f32 addition. -/
def mix_mic_chunk (fadd : F32 → F32 → F32) : List F32 → List F32 → List Int × List F32
  | [], buf => ([], buf)
  | m :: ms, [] =>
    let rest := mix_mic_chunk fadd ms []
    (write_sample_val m :: rest.1, rest.2)
  | m :: ms, s :: ss =>
    let rest := mix_mic_chunk fadd ms ss
    (write_sample_val (fadd m s) :: rest.1, rest.2)

/-- Outer mixing loop of run_mixing_loop: per iteration, drain all available
system chunks into the rolling buffer (sys_buffer.extend), then mix the
received microphone chunk.  Each list entry carries the system chunks drained
in that iteration together with the microphone chunk that drove it. -/
def mixing_loop_samples (fadd : F32 → F32 → F32) :
    List (List (List F32) × List F32) → List F32 → List Int
  | [], _ => []
  | (sysArrivals, micChunk) :: rest, buf =>
    let buf2 := buf ++ sysArrivals.flatten
    let mixed := mix_mic_chunk fadd micChunk buf2
    mixed.1 ++ mixing_loop_samples fadd rest mixed.2

/-- Exact-rational model of f32 addition: NaN propagates, opposite
infinities give NaN, finite addition is exact. -/
def f32Add : F32 → F32 → F32
  | .nan, _ => .nan
  | .inf _, .nan => .nan
  | .inf b, .inf c => if b = c then .inf b else .nan
  | .inf b, .val _ => .inf b
  | .val _, .nan => .nan
  | .val _, .inf c => .inf c
  | .val p, .val q => .val (p + q)

/-- Exact-rational model of f32 multiplication: NaN propagates, zero times
infinity gives NaN, finite multiplication is exact. -/
def f32Mul : F32 → F32 → F32
  | .nan, _ => .nan
  | .inf _, .nan => .nan
  | .inf b, .inf c => .inf (b = c)
  | .inf b, .val q => if q = 0 then .nan else .inf (b = decide (0 < q))
  | .val _, .nan => .nan
  | .val q, .inf c => if q = 0 then .nan else .inf (c = decide (0 < q))
  | .val p, .val q => .val (p * q)

/-- Division of an F32 by a machine-integer count cast to f32 (used for
channel averaging and the RMS mean): exact on finite values. -/
def f32DivNat (x : F32) (n : Nat) : F32 :=
  match x with
  | .nan => .nan
  | .inf b => .inf b
  | .val q =>
    if n = 0 then (if q = 0 then .nan else .inf (decide (0 < q)))
    else .val (q / (n : ℚ))

/-- Sum of a chunk of f32 samples, folded left from 0.0 as Rust iter sum does. -/
def chunkSum (c : List F32) : F32 :=
  c.foldl f32Add (.val 0)

/-- Downmix helper to_mono from audio.rs: a single channel passes through,
otherwise frames of channels samples are averaged (sum divided by the
channel count). -/
def to_mono (channels : Nat) (data : List F32) : List F32 :=
  if channels = 1 then data
  else (data.toChunks channels).map (fun c => f32DivNat (chunkSum c) channels)

/-- Sum of squares of a chunk, data.iter().map(s * s).sum() in Rust. -/
def sumSquares (data : List F32) : F32 :=
  data.foldl (fun acc s => f32Add acc (f32Mul s s)) (.val 0)

/-- calculate_rms from audio.rs: 0.0 on an empty chunk, otherwise the square
root of the mean of squares.  The square root (the one operation with no
exact rational counterpart) is passed in as an abstract function fsqrt. -/
def calculate_rms (fsqrt : F32 → F32) (data : List F32) : F32 :=
  if data.length = 0 then .val 0
  else fsqrt (f32DivNat (sumSquares data) data.length)

/-- Observable effect of one capture-stream callback invocation: the value
passed to the level meter and the chunk enqueued for the mixing loop, if any. -/
structure CallbackEffect where
  levelValue : F32
  enqueued : Option (List F32)
deriving DecidableEq

/-- Microphone callback of the current start_segment
(src-tauri/src/audio.rs): downmix, record the RMS input level, then send the
chunk unconditionally (let _ = tx.send(mono) has no is_recording gate). -/
def micCallbackTauri (fsqrt : F32 → F32) (_isRecording : Bool)
    (channels : Nat) (data : List F32) : CallbackEffect :=
  let mono := to_mono channels data
  let rms := calculate_rms fsqrt mono
  { levelValue := rms, enqueued := some mono }

/-- System-loopback callback of the current start_segment
(src-tauri/src/audio.rs): downmix, record the RMS output level, and send the
chunk only while is_recording_sys holds. -/
def sysCallbackTauri (fsqrt : F32 → F32) (isRecording : Bool)
    (channels : Nat) (data : List F32) : CallbackEffect :=
  let mono := to_mono channels data
  let rms := calculate_rms fsqrt mono
  { levelValue := rms, enqueued := if isRecording then some mono else none }

/-- Microphone callback of the legacy start_segment (src/audio.rs): downmix,
record the level, and send the chunk only while is_recording_mic holds. -/
def micCallbackLegacy (fsqrt : F32 → F32) (isRecording : Bool)
    (channels : Nat) (data : List F32) : CallbackEffect :=
  let mono := to_mono channels data
  let rms := calculate_rms fsqrt mono
  { levelValue := rms, enqueued := if isRecording then some mono else none }

/-- System callback of the legacy start_segment (src/audio.rs): downmix,
record the level, and send the chunk only while is_recording_sys holds. -/
def sysCallbackLegacy (fsqrt : F32 → F32) (isRecording : Bool)
    (channels : Nat) (data : List F32) : CallbackEffect :=
  let mono := to_mono channels data
  let rms := calculate_rms fsqrt mono
  { levelValue := rms, enqueued := if isRecording then some mono else none }

/-- Clamp to [0.0, 1.0], level.clamp(0.0, 1.0) in Rust: NaN stays NaN,
infinities clamp to the bounds. -/
def f32Clamp01 (x : F32) : F32 :=
  match x with
  | .nan => .nan
  | .inf b => .val (if b then 1 else 0)
  | .val q => .val (min 1 (max 0 q))

/-- Saturating cast of an F32 to u32 (Rust expr as u32): truncate toward
zero, saturate to [0, 2^32 - 1], NaN maps to 0. -/
def castF32toU32 (x : F32) : Nat :=
  match x with
  | .nan => 0
  | .inf true => 4294967295
  | .inf false => 0
  | .val q => Int.toNat (min 4294967295 (ratTrunc q))

/-- Scaled meter value (level.clamp(0.0, 1.0) * 100.0) as u32 computed by
record_input_level / record_output_level (src-tauri/src/state.rs). -/
def scaledRecordedLevel (level : F32) : Nat :=
  castF32toU32 (f32Mul (f32Clamp01 level) (.val 100))

/-- record_input_level from src-tauri/src/state.rs: scale the RMS level to
0-100 and fetch_max it into the stored atomic meter value. -/
def record_input_level (stored : Nat) (level : F32) : Nat :=
  max stored (scaledRecordedLevel level)

/-- record_output_level from src-tauri/src/state.rs: identical to the input
variant but on the output meter. -/
def record_output_level (stored : Nat) (level : F32) : Nat :=
  max stored (scaledRecordedLevel level)

/-- take_input_level from src-tauri/src/state.rs: swap(0) returns the stored
meter value and resets it to 0.  First component is the returned value,
second the new stored value. -/
def take_input_level (stored : Nat) : Nat × Nat :=
  (stored, 0)

/-- take_output_level from src-tauri/src/state.rs: identical to the input
variant but on the output meter. -/
def take_output_level (stored : Nat) : Nat × Nat :=
  (stored, 0)

/-- Outcome of one upload attempt as observed by the retry loop in
upload_segment (uploader.rs): a success HTTP status, a non-success HTTP
status, or a transport error. -/
inductive AttemptOutcome where
  | success
  | httpFailure
  | transportError
deriving DecidableEq

/-- Result of a whole upload_segment call: how many attempts were made, the
seconds slept between attempts in order, and whether the call returned Ok. -/
structure UploadRun where
  attempts : Nat
  waits : List Nat
  succeeded : Bool
deriving DecidableEq

/-- MAX_ATTEMPTS constant from upload_segment (uploader.rs). -/
def MAX_ATTEMPTS : Nat := 5

/-- Retry loop of upload_segment (uploader.rs), with the network modelled as
an oracle giving the outcome of each numbered attempt.  Mirrors the Rust
loop: increment attempts, try, return Ok on success, return Err once
attempts >= MAX_ATTEMPTS, otherwise sleep 2^attempts seconds and loop.  The
fuel argument only bounds the recursion; MAX_ATTEMPTS fuel is enough. -/
def uploadLoop (oracle : Nat → AttemptOutcome) (attempts0 fuel : Nat) : UploadRun :=
  match fuel with
  | 0 => ⟨attempts0, [], false⟩
  | fuel + 1 =>
    let attempts := attempts0 + 1
    match oracle attempts with
    | .success => ⟨attempts, [], true⟩
    | _ =>
      if MAX_ATTEMPTS ≤ attempts then ⟨attempts, [], false⟩
      else
        let rest := uploadLoop oracle attempts fuel
        ⟨rest.attempts, 2 ^ attempts :: rest.waits, rest.succeeded⟩

/-- upload_segment from uploader.rs, as a function of the per-attempt
network outcome. -/
def upload_segment (oracle : Nat → AttemptOutcome) : UploadRun :=
  uploadLoop oracle 0 MAX_ATTEMPTS

/-- Observable local actions taken once a segment upload attempt chain
finishes. -/
inductive SegAction where
  | removeLocalFile
  | emitCompletion (seq : Int)
  | logUploadError
deriving DecidableEq

/-- Post-upload handling in run_mixing_loop (src-tauri/src/audio.rs): on Ok
the segment sequence number is sent on the progress channel; on Err the
failure is logged.  The local file is not touched in either branch. -/
def uploadCompletionTauri (seq : Int) (uploadOk : Bool) : List SegAction :=
  if uploadOk then [SegAction.emitCompletion seq] else [SegAction.logUploadError]

/-- Post-upload handling in the legacy start_segment (src/audio.rs): on Ok
the local file is removed (std::fs::remove_file), on Err the failure is
logged and the file is preserved. -/
def uploadCompletionLegacy (uploadOk : Bool) : List SegAction :=
  if uploadOk then [SegAction.removeLocalFile] else [SegAction.logUploadError]

/-- Session status enum AppStatus from state.rs. -/
inductive AppStatus where
  | idle
  | recording
  | paused
  | uploading
  | backendOffline
  | error (reason : String)
deriving DecidableEq

/-- Terminal remote calls the Stop handler can issue (uploader.rs calls made
from run_audio_loop). -/
inductive RemoteCall where
  | deleteRecording (id : Int)
  | finalizeRecording (id : Int)
deriving DecidableEq

/-- Shared session state touched by run_audio_loop and run_mixing_loop
(src-tauri): the fields of AppState relevant to the session commands, the
shared is_recording flag, the mixing thread and its local sequence counter
(none when no thread is running), and the configured minimum meeting length
in minutes (min_meeting_length, None meaning unset). -/
structure CtrlState where
  status : AppStatus
  currentRecordingId : Option Int
  currentSequence : Int
  accumulatedDurationSecs : Nat
  recordingStartSet : Bool
  isRecording : Bool
  threadSeq : Option Int
  minMeetingLength : Option Nat
deriving DecidableEq

/-- Events processed by the session controller: the four commands of
run_audio_loop plus the finalize-one-segment step of the running mixing
loop.  A stop event carries the elapsed seconds of the current active
interval as observed at stop time (none when SystemTime elapsed fails) and
whether the remote delete call succeeds. -/
inductive AudioEvent where
  | start (id : Int)
  | segmentFinalized
  | pause
  | resume
  | stop (elapsed : Option Nat) (deleteOk : Bool)

/-- Total active duration computed by the Stop arm of run_audio_loop:
accumulated_duration plus the elapsed time of the current interval when a
start time is set and elapsed succeeds, in whole seconds. -/
def stopDuration (acc : Nat) (startSet : Bool) (elapsed : Option Nat) : Nat :=
  if startSet then
    match elapsed with
    | some e => acc + e
    | none => acc
  else acc

/-- Terminal calls issued by the spawned Stop task of run_audio_loop: when a
positive minimum meeting length is configured and the duration falls short,
delete the recording, falling back to finalize only if the delete fails;
otherwise finalize. -/
def stopCalls (id : Int) (minMinutes : Nat) (durationSecs : Nat) (deleteOk : Bool) :
    List RemoteCall :=
  if 0 < minMinutes ∧ durationSecs < minMinutes * 60 then
    if deleteOk then [RemoteCall.deleteRecording id]
    else [RemoteCall.deleteRecording id, RemoteCall.finalizeRecording id]
  else [RemoteCall.finalizeRecording id]

/-- One controller step (the command match of run_audio_loop together with
the per-segment sequence update of run_mixing_loop), returning the new state
and the remote terminal calls issued. -/
def sessionStep (s : CtrlState) : AudioEvent → CtrlState × List RemoteCall
  | .start _ =>
    ({ s with isRecording := true, threadSeq := some 1 }, [])
  | .segmentFinalized =>
    match s.threadSeq with
    | some q =>
      ({ s with threadSeq := some (q + 1), currentSequence := q + 1 }, [])
    | none => (s, [])
  | .pause =>
    ({ s with isRecording := false, threadSeq := none }, [])
  | .resume =>
    match s.currentRecordingId with
    | some _ =>
      ({ s with isRecording := true, threadSeq := some s.currentSequence }, [])
    | none => (s, [])
  | .stop elapsed deleteOk =>
    match s.currentRecordingId with
    | some rid =>
      let dur := stopDuration s.accumulatedDurationSecs s.recordingStartSet elapsed
      let calls := stopCalls rid (s.minMeetingLength.getD 0) dur deleteOk
      ({ s with status := .idle, currentRecordingId := none, currentSequence := 1,
                accumulatedDurationSecs := 0, recordingStartSet := false,
                isRecording := false, threadSeq := none }, calls)
    | none =>
      ({ s with status := .idle, isRecording := false, threadSeq := none }, [])

/-- Fold a list of events through the controller, discarding emitted calls. -/
def runEvents (s : CtrlState) (evs : List AudioEvent) : CtrlState :=
  evs.foldl (fun st e => (sessionStep st e).1) s

/-- Events that can occur while a session is active (no Start and no Stop). -/
def activeEvent : AudioEvent → Prop
  | .segmentFinalized => True
  | .pause => True
  | .resume => True
  | _ => False

/-- Invariant linking the published sequence to the running thread counter:
whenever a mixing thread is running, the published current_sequence is at
most the next segment number of the thread. -/
def seqInv (s : CtrlState) : Prop :=
  ∀ q, s.threadSeq = some q → s.currentSequence ≤ q

lemma ratTrunc_le (x : ℚ) (b : ℤ) (h : x ≤ (b : ℚ)) (hb : 0 ≤ b) : ratTrunc x ≤ b := by
  unfold ratTrunc
  split
  · have hf := Int.floor_le_floor h
    simpa using hf
  · have hx : x ≤ ((0 : ℤ) : ℚ) := by
      push_cast
      linarith
    have hc := Int.ceil_le_ceil hx
    simp at hc
    omega

lemma le_ratTrunc (x : ℚ) (b : ℤ) (h : (b : ℚ) ≤ x) (hb : b ≤ 0) : b ≤ ratTrunc x := by
  unfold ratTrunc
  split
  · have hx : ((0 : ℤ) : ℚ) ≤ x := by
      push_cast
      linarith
    have hf := Int.floor_le_floor hx
    simp at hf
    omega
  · have hc := Int.ceil_le_ceil h
    simpa using hc

lemma castF32toI16_of_bounds (q : ℚ) (h1 : -1 ≤ q) (h2 : q ≤ 1) :
    -32767 ≤ castF32toI16 (F32.val (q * 32767)) ∧
      castF32toI16 (F32.val (q * 32767)) ≤ 32767 := by
  have hu : q * 32767 ≤ ((32767 : ℤ) : ℚ) := by
    push_cast
    nlinarith
  have hlo : ((-32767 : ℤ) : ℚ) ≤ q * 32767 := by
    push_cast
    nlinarith
  have hub := ratTrunc_le (q * 32767) 32767 hu (by norm_num)
  have hlb := le_ratTrunc (q * 32767) (-32767) hlo (by norm_num)
  simp only [castF32toI16]
  omega

/-- Every written sample lies in [-32767, 32767]: the clip bounds the mix to
[-1, 1] (or NaN), scaling by 32767 bounds the product, and the saturating
cast maps NaN to 0. -/
lemma write_sample_val_range (m : F32) :
    -32767 ≤ write_sample_val m ∧ write_sample_val m ≤ 32767 := by
  unfold write_sample_val hard_clip
  by_cases hg : fgt m 1
  · rw [if_pos hg]
    simpa only [mulI16Max] using castF32toI16_of_bounds 1 (by norm_num) (by norm_num)
  · rw [if_neg hg]
    by_cases hl : flt m (-1)
    · rw [if_pos hl]
      simpa only [mulI16Max] using castF32toI16_of_bounds (-1) (by norm_num) (by norm_num)
    · rw [if_neg hl]
      cases m with
      | nan => simp [mulI16Max, castF32toI16]
      | inf b =>
        cases b with
        | true => simp [fgt] at hg
        | false => simp [flt] at hl
      | val q =>
        simp only [fgt, decide_eq_true_eq, not_lt] at hg
        simp only [flt, decide_eq_true_eq, not_lt] at hl
        simpa only [mulI16Max] using castF32toI16_of_bounds q hl hg

lemma mem_mix_mic_chunk (fadd : F32 → F32 → F32) (mic buf : List F32) (x : Int)
    (hx : x ∈ (mix_mic_chunk fadd mic buf).1) : ∃ m, x = write_sample_val m := by
  induction mic generalizing buf with
  | nil => simp [mix_mic_chunk] at hx
  | cons m ms ih =>
    cases buf with
    | nil =>
      simp only [mix_mic_chunk, List.mem_cons] at hx
      rcases hx with h | h
      · exact ⟨m, h⟩
      · exact ih [] h
    | cons s ss =>
      simp only [mix_mic_chunk, List.mem_cons] at hx
      rcases hx with h | h
      · exact ⟨fadd m s, h⟩
      · exact ih ss h

lemma mem_mixing_loop_samples (fadd : F32 → F32 → F32)
    (iters : List (List (List F32) × List F32)) (buf : List F32) (x : Int)
    (hx : x ∈ mixing_loop_samples fadd iters buf) : ∃ m, x = write_sample_val m := by
  induction iters generalizing buf with
  | nil => simp [mixing_loop_samples] at hx
  | cons it rest ih =>
    obtain ⟨sysArrivals, micChunk⟩ := it
    simp only [mixing_loop_samples, List.mem_append] at hx
    rcases hx with h | h
    · exact mem_mix_mic_chunk fadd micChunk (buf ++ sysArrivals.flatten) x h
    · exact ih _ h

lemma uploadLoop_step_fail (oracle : Nat → AttemptOutcome) (a f : Nat)
    (hfail : oracle (a + 1) ≠ .success) (hlt : a + 1 < MAX_ATTEMPTS) :
    uploadLoop oracle a (f + 1) =
      ⟨(uploadLoop oracle (a + 1) f).attempts,
        2 ^ (a + 1) :: (uploadLoop oracle (a + 1) f).waits,
        (uploadLoop oracle (a + 1) f).succeeded⟩ := by
  have hn : ¬ MAX_ATTEMPTS ≤ a + 1 := Nat.not_le.mpr hlt
  rw [uploadLoop]
  cases h : oracle (a + 1) with
  | success => exact absurd h hfail
  | httpFailure => simp [h, hn]
  | transportError => simp [h, hn]

lemma uploadLoop_last_fail (oracle : Nat → AttemptOutcome) (a f : Nat)
    (hfail : oracle (a + 1) ≠ .success) (hge : MAX_ATTEMPTS ≤ a + 1) :
    uploadLoop oracle a (f + 1) = ⟨a + 1, [], false⟩ := by
  rw [uploadLoop]
  cases h : oracle (a + 1) with
  | success => exact absurd h hfail
  | httpFailure => simp [h, hge]
  | transportError => simp [h, hge]

lemma runEvents_cons (s : CtrlState) (e : AudioEvent) (evs : List AudioEvent) :
    runEvents s (e :: evs) = runEvents (sessionStep s e).1 evs := rfl

lemma runEvents_append (s : CtrlState) (l1 l2 : List AudioEvent) :
    runEvents s (l1 ++ l2) = runEvents (runEvents s l1) l2 := by
  simp [runEvents, List.foldl_append]

lemma sessionStep_finalized (s : CtrlState) (q : Int) (h : s.threadSeq = some q) :
    (sessionStep s AudioEvent.segmentFinalized).1 =
      { s with threadSeq := some (q + 1), currentSequence := q + 1 } := by
  simp [sessionStep, h]

lemma runEvents_replicate_finalized (k : Nat) (s : CtrlState) (q : Int)
    (h : s.threadSeq = some q) :
    (runEvents s (List.replicate k AudioEvent.segmentFinalized)).threadSeq
        = some (q + k) ∧
      (runEvents s (List.replicate k AudioEvent.segmentFinalized)).currentSequence
        = (if k = 0 then s.currentSequence else q + k) ∧
      (runEvents s (List.replicate k AudioEvent.segmentFinalized)).currentRecordingId
        = s.currentRecordingId := by
  induction k generalizing s q with
  | zero => simp [runEvents, h]
  | succ k ih =>
    rw [List.replicate_succ, runEvents_cons, sessionStep_finalized s q h]
    obtain ⟨h1, h2, h3⟩ :=
      ih { s with threadSeq := some (q + 1), currentSequence := q + 1 } (q + 1) rfl
    refine ⟨?_, ?_, ?_⟩
    · rw [h1]
      congr 1
      push_cast
      ring
    · rw [h2]
      by_cases hk : k = 0
      · subst hk
        norm_num
      · simp only [hk, if_false, Nat.succ_ne_zero]
        push_cast
        ring
    · exact h3

lemma foldl_record_input_eq (ls : List F32) (s0 : Nat) :
    ls.foldl record_input_level s0
      = max s0 ((ls.map scaledRecordedLevel).foldr max 0) := by
  induction ls generalizing s0 with
  | nil => simp
  | cons l ls ih =>
    simp only [List.foldl_cons, List.map_cons, List.foldr_cons]
    rw [ih]
    unfold record_input_level
    omega

lemma le_foldr_max (a : Nat) (L : List Nat) (ha : a ∈ L) : a ≤ L.foldr max 0 := by
  induction L with
  | nil => simp at ha
  | cons b bs ih =>
    simp only [List.foldr_cons]
    rcases List.mem_cons.mp ha with h | h
    · omega
    · have := ih h
      omega

lemma scaledRecordedLevel_le_100 (level : F32) : scaledRecordedLevel level ≤ 100 := by
  cases level with
  | nan => norm_num [scaledRecordedLevel, f32Clamp01, f32Mul, castF32toU32]
  | inf b =>
    cases b <;> norm_num [scaledRecordedLevel, f32Clamp01, f32Mul, castF32toU32, ratTrunc]
  | val q =>
    unfold scaledRecordedLevel f32Clamp01 f32Mul castF32toU32
    simp only
    have h1 : min 1 (max 0 q) * 100 ≤ ((100 : ℤ) : ℚ) := by
      push_cast
      have : min 1 (max 0 q) ≤ 1 := min_le_left _ _
      nlinarith
    have h2 := ratTrunc_le (min 1 (max 0 q) * 100) 100 h1 (by norm_num)
    omega

/-- Claim C1, amended.  When every attempt of upload_segment fails (transport
error or non-success HTTP status), exactly 5 attempts are made, the waits
between consecutive attempts are 2s, 4s, 8s, 16s (2^attempt seconds before
attempt attempt+1 for attempts 1 through 4), no wait occurs after the 5th
failed attempt, and the call returns a permanent-failure error.  The claimed
fifth wait of 32s does not occur: once attempts reaches MAX_ATTEMPTS the
loop returns Err before sleeping. -/
theorem upload_segment_retry_schedule (oracle : Nat → AttemptOutcome)
    (h : ∀ n, oracle n ≠ AttemptOutcome.success) :
    upload_segment oracle = ⟨5, [2, 4, 8, 16], false⟩ := by
  have e1 : upload_segment oracle = uploadLoop oracle 0 (4 + 1) := rfl
  rw [e1, uploadLoop_step_fail oracle 0 4 (h 1) (by decide)]
  have e2 : uploadLoop oracle (0 + 1) 4 = uploadLoop oracle 1 (3 + 1) := rfl
  rw [e2, uploadLoop_step_fail oracle 1 3 (h 2) (by decide)]
  have e3 : uploadLoop oracle (1 + 1) 3 = uploadLoop oracle 2 (2 + 1) := rfl
  rw [e3, uploadLoop_step_fail oracle 2 2 (h 3) (by decide)]
  have e4 : uploadLoop oracle (2 + 1) 2 = uploadLoop oracle 3 (1 + 1) := rfl
  rw [e4, uploadLoop_step_fail oracle 3 1 (h 4) (by decide)]
  have e5 : uploadLoop oracle (3 + 1) 1 = uploadLoop oracle 4 (0 + 1) := rfl
  rw [e5, uploadLoop_last_fail oracle 4 0 (h 5) (by decide)]
  norm_num

/-- Witness for C1: the always-failing oracle satisfies the hypothesis and
the retry run evaluates to 5 attempts, waits 2, 4, 8, 16, and failure. -/
theorem upload_segment_retry_schedule_witness :
    (∀ n : Nat, (fun _ : Nat => AttemptOutcome.transportError) n ≠ AttemptOutcome.success) ∧
    upload_segment (fun _ => AttemptOutcome.transportError) = ⟨5, [2, 4, 8, 16], false⟩ :=
  ⟨(fun _ h => nomatch h),
    upload_segment_retry_schedule (fun _ => AttemptOutcome.transportError) (fun _ h => nomatch h)⟩

/-- Counterexample for C1 as stated: with five consecutive failures the
waits are [2, 4, 8, 16], not the claimed [2, 4, 8, 16, 32] — there is no
32-second wait after the fifth failed attempt. -/
theorem upload_segment_waits_counterexample :
    (upload_segment (fun _ => AttemptOutcome.transportError)).waits = [2, 4, 8, 16] ∧
      (upload_segment (fun _ => AttemptOutcome.transportError)).waits ≠ [2, 4, 8, 16, 32] := by
  constructor <;> decide

/-- Claim C2.  For arbitrary f32 inputs on both channels (any rational
value, infinities, or NaN, under any f32 addition function), every 16-bit
sample emitted by the mixing loop lies in [-32768, 32767]. -/
theorem mixing_loop_samples_in_pcm16_range (fadd : F32 → F32 → F32)
    (iters : List (List (List F32) × List F32)) (buf : List F32) (x : Int)
    (hx : x ∈ mixing_loop_samples fadd iters buf) :
    -32768 ≤ x ∧ x ≤ 32767 := by
  obtain ⟨m, rfl⟩ := mem_mixing_loop_samples fadd iters buf x hx
  have h := write_sample_val_range m
  exact ⟨by omega, h.2⟩

/-- Witness for C2: a saturated positive mix (1.0 + 2.0, clipped to 1.0)
produces the sample 32767, which is in range. -/
theorem mixing_loop_samples_in_pcm16_range_witness :
    ((32767 : Int) ∈ mixing_loop_samples f32Add [([[F32.val 2]], [F32.val 1])] []) ∧
      (-32768 ≤ (32767 : Int) ∧ (32767 : Int) ≤ 32767) :=
  ⟨by norm_num [mixing_loop_samples, mix_mic_chunk, write_sample_val, hard_clip, fgt, flt,
      mulI16Max, castF32toI16, ratTrunc, f32Add],
    mixing_loop_samples_in_pcm16_range f32Add [([[F32.val 2]], [F32.val 1])] [] 32767
      (by norm_num [mixing_loop_samples, mix_mic_chunk, write_sample_val, hard_clip, fgt, flt,
        mulI16Max, castF32toI16, ratTrunc, f32Add])⟩

/-- Claim C9.  Because the conversion scales the clipped mix by
i16::MAX = 32767, every written sample lies in the tighter range
[-32767, 32767] — the value -32768 is never written, even for saturated
negative inputs — and a NaN mixed value converts to the sample 0. -/
theorem mixing_output_tight_range_and_nan :
    (∀ (fadd : F32 → F32 → F32) (iters : List (List (List F32) × List F32))
        (buf : List F32) (x : Int), x ∈ mixing_loop_samples fadd iters buf →
      -32767 ≤ x ∧ x ≤ 32767) ∧
    write_sample_val F32.nan = 0 := by
  constructor
  · intro fadd iters buf x hx
    obtain ⟨m, rfl⟩ := mem_mixing_loop_samples fadd iters buf x hx
    exact write_sample_val_range m
  · norm_num [write_sample_val, hard_clip, fgt, flt, mulI16Max, castF32toI16]

/-- Witness for C9: both channels saturated fully negative (-5.0 + -5.0,
clipped to -1.0) produce the sample -32767, the smallest value ever
written; it satisfies the tight bounds. -/
theorem mixing_output_tight_range_witness :
    ((-32767 : Int) ∈ mixing_loop_samples f32Add [([[F32.val (-5)]], [F32.val (-5)])] []) ∧
      (-32767 ≤ (-32767 : Int) ∧ (-32767 : Int) ≤ 32767) :=
  ⟨by norm_num [mixing_loop_samples, mix_mic_chunk, write_sample_val, hard_clip, fgt, flt,
      mulI16Max, castF32toI16, ratTrunc, f32Add, Int.ceil_neg],
    mixing_output_tight_range_and_nan.1 f32Add [([[F32.val (-5)]], [F32.val (-5)])] [] (-32767)
      (by norm_num [mixing_loop_samples, mix_mic_chunk, write_sample_val, hard_clip, fgt, flt,
        mulI16Max, castF32toI16, ratTrunc, f32Add, Int.ceil_neg])⟩

/-- Claim C3.  The per-chunk mixing loop processes microphone samples in
order: the i-th output sample is the clipped, scaled sum of the i-th mic
sample and the i-th buffered system sample when the buffer holds one, and
of the mic sample alone (system treated as silence) past the end of the
buffer; the output has one sample per mic sample, and exactly the consumed
consumed front part of the system buffer is removed (the remainder is buf.drop
mic.length, never a negative amount). -/
theorem mix_mic_chunk_spec (fadd : F32 → F32 → F32) (mic buf : List F32) :
    (mix_mic_chunk fadd mic buf).1.length = mic.length ∧
    (∀ i, i < mic.length →
      (mix_mic_chunk fadd mic buf).1.getD i 0 =
        write_sample_val
          (if i < buf.length then fadd (mic.getD i F32.nan) (buf.getD i F32.nan)
           else mic.getD i F32.nan)) ∧
    (mix_mic_chunk fadd mic buf).2 = buf.drop mic.length := by
  induction mic generalizing buf with
  | nil => simp [mix_mic_chunk]
  | cons m ms ih =>
    cases buf with
    | nil =>
      obtain ⟨ih1, ih2, ih3⟩ := ih []
      refine ⟨by simp [mix_mic_chunk, ih1], ?_, by simp [mix_mic_chunk, ih3]⟩
      intro i hi
      cases i with
      | zero => simp [mix_mic_chunk]
      | succ i =>
        have hi2 : i < ms.length := by simpa using hi
        have h := ih2 i hi2
        simpa [mix_mic_chunk] using h
    | cons s ss =>
      obtain ⟨ih1, ih2, ih3⟩ := ih ss
      refine ⟨by simp [mix_mic_chunk, ih1], ?_, by simp [mix_mic_chunk, ih3]⟩
      intro i hi
      cases i with
      | zero => simp [mix_mic_chunk]
      | succ i =>
        have hi2 : i < ms.length := by simpa using hi
        have h := ih2 i hi2
        simpa [mix_mic_chunk] using h

/-- Witness for C3: a two-sample mic chunk against a one-sample system
buffer; at index 1 the buffer is exhausted, so the output sample is the mic
sample alone. -/
theorem mix_mic_chunk_spec_witness :
    (1 < ([F32.val 1, F32.val 1] : List F32).length) ∧
      (mix_mic_chunk f32Add [F32.val 1, F32.val 1] [F32.val 1]).1.getD 1 0 =
        write_sample_val
          (if 1 < ([F32.val 1] : List F32).length then
            f32Add (([F32.val 1, F32.val 1] : List F32).getD 1 F32.nan)
              (([F32.val 1] : List F32).getD 1 F32.nan)
           else ([F32.val 1, F32.val 1] : List F32).getD 1 F32.nan) :=
  ⟨by norm_num,
    (mix_mic_chunk_spec f32Add [F32.val 1, F32.val 1] [F32.val 1]).2.1 1 (by norm_num)⟩

/-- Claim C4.  The sequence counter starts at 1 on Start; finalizing a
segment increments the running counter by exactly one and publishes it into
shared state; under the invariant seqInv (the published sequence never
exceeds the running counter, which Start establishes since it launches the
thread at 1 with the published value 1), the published sequence never
decreases across the events of an active session; and a session that starts,
finalizes k >= 1 segments, pauses and resumes continues with segment k + 1. -/
theorem sequence_counter_invariants :
    (∀ (s : CtrlState) (id : Int),
      ((sessionStep s (AudioEvent.start id)).1).threadSeq = some 1) ∧
    (∀ (s : CtrlState) (q : Int), s.threadSeq = some q →
      ((sessionStep s AudioEvent.segmentFinalized).1).threadSeq = some (q + 1) ∧
      ((sessionStep s AudioEvent.segmentFinalized).1).currentSequence = q + 1) ∧
    (∀ (s : CtrlState) (e : AudioEvent), seqInv s → activeEvent e →
      s.currentSequence ≤ ((sessionStep s e).1).currentSequence ∧
      seqInv (sessionStep s e).1) ∧
    (∀ (s : CtrlState) (id : Int) (k : Nat), s.currentRecordingId = some id → 1 ≤ k →
      (runEvents s (AudioEvent.start id ::
          (List.replicate k AudioEvent.segmentFinalized ++
            [AudioEvent.pause, AudioEvent.resume]))).threadSeq = some ((k : Int) + 1)) := by
  refine ⟨?_, ?_, ?_, ?_⟩
  · intro s id
    simp [sessionStep]
  · intro s q h
    rw [sessionStep_finalized s q h]
    exact ⟨rfl, rfl⟩
  · intro s e hinv he
    cases e with
    | start id => exact he.elim
    | stop a b => exact he.elim
    | segmentFinalized =>
      cases hq : s.threadSeq with
      | none =>
        have hstep : (sessionStep s AudioEvent.segmentFinalized).1 = s := by
          simp [sessionStep, hq]
        rw [hstep]
        exact ⟨le_refl _, hinv⟩
      | some q =>
        rw [sessionStep_finalized s q hq]
        constructor
        · have h := hinv q hq
          show s.currentSequence ≤ q + 1
          omega
        · intro r hr
          simp only [Option.some.injEq] at hr
          show q + 1 ≤ r
          omega
    | pause =>
      have hstep : (sessionStep s AudioEvent.pause).1 =
          { s with isRecording := false, threadSeq := none } := by
        simp [sessionStep]
      rw [hstep]
      refine ⟨le_refl _, ?_⟩
      intro r hr
      simp at hr
    | resume =>
      cases hid : s.currentRecordingId with
      | none =>
        have hstep : (sessionStep s AudioEvent.resume).1 = s := by
          simp [sessionStep, hid]
        rw [hstep]
        exact ⟨le_refl _, hinv⟩
      | some rid =>
        have hstep : (sessionStep s AudioEvent.resume).1 =
            { s with isRecording := true, threadSeq := some s.currentSequence } := by
          simp [sessionStep, hid]
        rw [hstep]
        refine ⟨le_refl _, ?_⟩
        intro r hr
        simp only [Option.some.injEq] at hr
        show s.currentSequence ≤ r
        omega
  · intro s id k hid hk
    rw [runEvents_cons]
    have hs1 : (sessionStep s (AudioEvent.start id)).1 =
        { s with isRecording := true, threadSeq := some 1 } := by
      simp [sessionStep]
    rw [hs1, runEvents_append]
    obtain ⟨h1, h2, h3⟩ := runEvents_replicate_finalized k
      { s with isRecording := true, threadSeq := some 1 } 1 rfl
    generalize hg : runEvents { s with isRecording := true, threadSeq := some 1 }
      (List.replicate k AudioEvent.segmentFinalized) = s2
    rw [hg] at h1 h2 h3
    rw [runEvents_cons]
    have hs3 : (sessionStep s2 AudioEvent.pause).1 =
        { s2 with isRecording := false, threadSeq := none } := by
      simp [sessionStep]
    rw [hs3, runEvents_cons]
    have hid2 : s2.currentRecordingId = some id := by
      rw [h3]
      exact hid
    have hs4 : (sessionStep { s2 with isRecording := false, threadSeq := none }
        AudioEvent.resume).1 =
        { s2 with isRecording := true, threadSeq := some s2.currentSequence } := by
      simp [sessionStep, hid2]
    rw [hs4]
    simp only [runEvents, List.foldl_nil]
    show some s2.currentSequence = some ((k : Int) + 1)
    have hk0 : ¬ k = 0 := by omega
    rw [h2, if_neg hk0]
    congr 1
    ring

/-- Witness for C4: a concrete session that starts, finalizes segments 1, 2
and 3, pauses and resumes continues with the thread counter at segment 4;
and a concrete seqInv state stays monotone across a finalize event. -/
theorem sequence_counter_invariants_witness :
    ((⟨AppStatus.recording, some 7, 1, 0, true, false, none, none⟩ :
        CtrlState).currentRecordingId = some 7) ∧
    (1 ≤ 3) ∧
    (runEvents ⟨AppStatus.recording, some 7, 1, 0, true, false, none, none⟩
        (AudioEvent.start 7 ::
          (List.replicate 3 AudioEvent.segmentFinalized ++
            [AudioEvent.pause, AudioEvent.resume]))).threadSeq = some 4 := by
  refine ⟨rfl, by norm_num, ?_⟩
  have h := sequence_counter_invariants.2.2.2
    ⟨AppStatus.recording, some 7, 1, 0, true, false, none, none⟩ 7 3 rfl (by norm_num)
  simpa using h

/-- Claim C5, amended.  In the current pipeline (run_mixing_loop,
src-tauri/src/audio.rs) the local segment file is preserved regardless of
the upload outcome: a successful upload emits the completion signal but
does not delete the file, and a permanent failure only logs.  Only the
legacy pipeline (src/audio.rs) deletes the local file, and there deletion
happens exactly when the upload succeeds. -/
theorem upload_completion_actions :
    (∀ (seq : Int) (ok : Bool), SegAction.removeLocalFile ∉ uploadCompletionTauri seq ok) ∧
    (∀ seq : Int, SegAction.emitCompletion seq ∈ uploadCompletionTauri seq true) ∧
    (∀ seq : Int, SegAction.emitCompletion seq ∉ uploadCompletionTauri seq false) ∧
    (∀ ok : Bool, SegAction.removeLocalFile ∈ uploadCompletionLegacy ok ↔ ok = true) := by
  refine ⟨?_, ?_, ?_, ?_⟩
  · intro seq ok
    cases ok <;> simp [uploadCompletionTauri]
  · intro seq
    simp [uploadCompletionTauri]
  · intro seq
    simp [uploadCompletionTauri]
  · intro ok
    cases ok <;> simp [uploadCompletionLegacy]

/-- Counterexample for C5 as stated: in the current pipeline a successful
upload of segment 1 does not remove the local file, so deletion does not
happen if the upload succeeds. -/
theorem upload_success_keeps_local_file :
    SegAction.removeLocalFile ∉ uploadCompletionTauri 1 true := by
  simp [uploadCompletionTauri]

/-- Claim C6.  On Stop with a current recording id: when the configured
minimum meeting length is positive and the total active duration in seconds
falls strictly below minimum * 60, a delete call is issued and a finalize
call is issued exactly when the delete fails; otherwise a finalize call is
issued and no delete call. -/
theorem stop_minimum_length_policy (s : CtrlState) (elapsed : Option Nat) (deleteOk : Bool)
    (rid : Int) (hid : s.currentRecordingId = some rid) :
    ((0 < s.minMeetingLength.getD 0 ∧
        stopDuration s.accumulatedDurationSecs s.recordingStartSet elapsed
          < s.minMeetingLength.getD 0 * 60) →
      RemoteCall.deleteRecording rid ∈ (sessionStep s (AudioEvent.stop elapsed deleteOk)).2 ∧
      (RemoteCall.finalizeRecording rid ∈ (sessionStep s (AudioEvent.stop elapsed deleteOk)).2
        ↔ deleteOk = false)) ∧
    ((s.minMeetingLength.getD 0 = 0 ∨
        s.minMeetingLength.getD 0 * 60 ≤
          stopDuration s.accumulatedDurationSecs s.recordingStartSet elapsed) →
      RemoteCall.finalizeRecording rid ∈ (sessionStep s (AudioEvent.stop elapsed deleteOk)).2 ∧
      RemoteCall.deleteRecording rid ∉ (sessionStep s (AudioEvent.stop elapsed deleteOk)).2) := by
  have hcalls : (sessionStep s (AudioEvent.stop elapsed deleteOk)).2 =
      stopCalls rid (s.minMeetingLength.getD 0)
        (stopDuration s.accumulatedDurationSecs s.recordingStartSet elapsed) deleteOk := by
    simp [sessionStep, hid]
  rw [hcalls]
  unfold stopCalls
  constructor
  · intro hshort
    rw [if_pos hshort]
    cases deleteOk <;> simp
  · intro hlong
    have hcond : ¬ (0 < s.minMeetingLength.getD 0 ∧
        stopDuration s.accumulatedDurationSecs s.recordingStartSet elapsed
          < s.minMeetingLength.getD 0 * 60) := by
      rcases hlong with h0 | hge
      · intro hc
        omega
      · intro hc
        omega
    rw [if_neg hcond]
    simp

/-- Witness for C6: a 90-second session with a 2-minute minimum produces a
delete call; a 150-second session with the same minimum produces a finalize
call and no delete call. -/
theorem stop_minimum_length_policy_witness :
    (RemoteCall.deleteRecording 9 ∈
      (sessionStep ⟨AppStatus.recording, some 9, 4, 90, false, true, none, some 2⟩
        (AudioEvent.stop none true)).2) ∧
    (RemoteCall.finalizeRecording 9 ∈
      (sessionStep ⟨AppStatus.recording, some 9, 4, 150, false, true, none, some 2⟩
        (AudioEvent.stop none true)).2 ∧
      RemoteCall.deleteRecording 9 ∉
        (sessionStep ⟨AppStatus.recording, some 9, 4, 150, false, true, none, some 2⟩
          (AudioEvent.stop none true)).2) :=
  ⟨((stop_minimum_length_policy
      ⟨AppStatus.recording, some 9, 4, 90, false, true, none, some 2⟩ none true 9 rfl).1
        (by decide)).1,
    (stop_minimum_length_policy
      ⟨AppStatus.recording, some 9, 4, 150, false, true, none, some 2⟩ none true 9 rfl).2
        (by decide)⟩

/-- Claim C7, amended.  When the shared is-recording flag is false, the
system-loopback callback of the current code and both callbacks of the
legacy code update the level meter but enqueue nothing; the microphone
callback of the current code, however, updates the level meter and always
enqueues its downmixed chunk, flag notwithstanding (its send is ungated).
Both callbacks always record the RMS level of the downmixed chunk. -/
theorem capture_callback_gating (fsqrt : F32 → F32) (channels : Nat) (data : List F32) :
    (sysCallbackTauri fsqrt false channels data).enqueued = none ∧
    (micCallbackLegacy fsqrt false channels data).enqueued = none ∧
    (sysCallbackLegacy fsqrt false channels data).enqueued = none ∧
    (micCallbackTauri fsqrt false channels data).enqueued = some (to_mono channels data) ∧
    (∀ b : Bool,
      (micCallbackTauri fsqrt b channels data).levelValue =
        calculate_rms fsqrt (to_mono channels data) ∧
      (sysCallbackTauri fsqrt b channels data).levelValue =
        calculate_rms fsqrt (to_mono channels data) ∧
      (sysCallbackTauri fsqrt b channels data).enqueued =
        (if b then some (to_mono channels data) else none)) :=
  ⟨rfl, rfl, rfl, rfl, fun _ => ⟨rfl, rfl, rfl⟩⟩

/-- Counterexample for C7 as stated: the current microphone callback invoked
with the is-recording flag false still enqueues its chunk onto the mixing
queue. -/
theorem mic_callback_enqueues_when_flag_false :
    (micCallbackTauri (fun x => x) false 1 [F32.val 1]).enqueued ≠ none := by
  simp [micCallbackTauri]

/-- Claim C8.  Between two take calls, the value returned by take equals the
previous stored value joined with the maximum of the scaled recorded values
(each level clamped to [0, 1] and multiplied by 100, truncated); it is never
below any single scaled recorded value of the interval; every take resets
the stored level to 0; the identical facts hold for the output meter; and
every scaled value lies in the 0-100 range. -/
theorem level_meter_take_semantics :
    (∀ (s0 : Nat) (ls : List F32),
      (take_input_level (ls.foldl record_input_level s0)).1 =
        max s0 ((ls.map scaledRecordedLevel).foldr max 0)) ∧
    (∀ (s0 : Nat) (ls : List F32) (l : F32), l ∈ ls →
      scaledRecordedLevel l ≤ (take_input_level (ls.foldl record_input_level s0)).1) ∧
    (∀ stored : Nat, (take_input_level stored).2 = 0 ∧ (take_output_level stored).2 = 0) ∧
    (∀ (s0 : Nat) (ls : List F32),
      (take_output_level (ls.foldl record_output_level s0)).1 =
        max s0 ((ls.map scaledRecordedLevel).foldr max 0)) ∧
    (∀ level : F32, scaledRecordedLevel level ≤ 100) := by
  refine ⟨?_, ?_, ?_, ?_, ?_⟩
  · intro s0 ls
    simpa [take_input_level] using foldl_record_input_eq ls s0
  · intro s0 ls l hl
    have h := foldl_record_input_eq ls s0
    have h2 := le_foldr_max (scaledRecordedLevel l) (ls.map scaledRecordedLevel)
      (List.mem_map_of_mem _ hl)
    simp [take_input_level, h]
    omega
  · intro stored
    exact ⟨rfl, rfl⟩
  · intro s0 ls
    have he : record_output_level = record_input_level := rfl
    rw [he]
    simpa [take_output_level] using foldl_record_input_eq ls s0
  · exact scaledRecordedLevel_le_100

/-- Witness for C8: recording a silent chunk level and then a clipping-loud
level (positive infinity, scaled to 100) into a meter holding 5 yields a
take of at least 100, never below the loud spike. -/
theorem level_meter_take_semantics_witness :
    (F32.inf true ∈ [F32.val 0, F32.inf true]) ∧
      scaledRecordedLevel (F32.inf true) ≤
        (take_input_level (([F32.val 0, F32.inf true] : List F32).foldl
          record_input_level 5)).1 :=
  ⟨by simp,
    level_meter_take_semantics.2.1 5 [F32.val 0, F32.inf true] (F32.inf true) (by simp)⟩

/-- Claim C10.  Processing Stop while no current recording id is set only
clears the recording flag, drops the joined thread, and sets status to
Idle: no remote call is issued, and the sequence counter, accumulated
duration and recording start time fields are unchanged. -/
theorem stop_without_recording_id (s : CtrlState) (elapsed : Option Nat) (deleteOk : Bool)
    (hid : s.currentRecordingId = none) :
    sessionStep s (AudioEvent.stop elapsed deleteOk) =
      (⟨AppStatus.idle, none, s.currentSequence, s.accumulatedDurationSecs,
        s.recordingStartSet, false, none, s.minMeetingLength⟩, []) := by
  obtain ⟨st, id0, cs, acc, rs, ir, ts, mm⟩ := s
  have h : id0 = none := hid
  subst h
  rfl

/-- Witness for C10: a concrete Stop with no recording id resets only the
status, flag and thread, leaving sequence 7, duration 42 and the start flag
untouched, with no remote calls. -/
theorem stop_without_recording_id_witness :
    sessionStep ⟨AppStatus.recording, none, 7, 42, true, true, some 7, some 2⟩
        (AudioEvent.stop (some 5) true) =
      (⟨AppStatus.idle, none, 7, 42, true, false, none, some 2⟩, []) :=
  stop_without_recording_id
    ⟨AppStatus.recording, none, 7, 42, true, true, some 7, some 2⟩ (some 5) true rfl

end Nojoin
